import Mathlib

/-
Verification of the reftype (reference-type taint) analysis of regalloc.rs,
file src/lib/src/analysis_reftypes.rs.

The analysis finds all live ranges that can carry reference-typed values:
starting from a client-supplied seed set of reftyped virtual registers, it
propagates "refness" along register-to-register moves of the reference
class, by building a move graph over unified range identities and computing
its transitive closure with a depth-first search, finally setting the
is_ref flag of every visited range.

Supporting data types (Reg, VirtualReg, InstPoint, RangeFrag, RangeId,
TypedIxVec, SparseSet, Map) live in data_structures.rs, which is not part
of the sources given here; they are modelled from the spec where noted.
Rust panics (failed lookups) are modelled by Option, with none standing
for a panic.  debug_assert! statements are compiled out in release builds;
the release semantics is the primary model, and a separate checked variant
models the debug_assert in mark_reffy.
-/

namespace RegAllocReftypes

/-- Modelled from the spec: register classes form "an enumerated domain,
e.g. integer/float/reference-capable" (the concrete enum is in the missing
data_structures.rs); we model a class as a natural number. -/
abbrev RegClass := Nat

/-- Modelled from the spec: a register has a class and a kind, physical
(real) or virtual, and an index; `data_structures.rs` (which packs these
into a u32) is not among the given sources. -/
structure Reg where
  is_real : Bool
  rc : RegClass
  index : Nat
  deriving DecidableEq, Repr

/-- Mirror of Rust `Reg::get_class`. -/
def Reg.get_class (r : Reg) : RegClass := r.rc

/-- Mirror of Rust `Reg::get_index`. -/
def Reg.get_index (r : Reg) : Nat := r.index

/-- Modelled from the spec: a virtual register (index plus class). -/
structure VirtualReg where
  rc : RegClass
  index : Nat
  deriving DecidableEq, Repr

def VirtualReg.get_class (v : VirtualReg) : RegClass := v.rc

def VirtualReg.get_index (v : VirtualReg) : Nat := v.index

/-- Modelled from the spec: a program point is "a position within the
instruction stream, distinguished into a use sub-point and a def
sub-point for the same instruction index". -/
structure InstPoint where
  iix : Nat
  isDefPoint : Bool
  deriving DecidableEq, Repr

/-- Mirror of Rust `InstPoint::new_use`. -/
def InstPoint.new_use (iix : Nat) : InstPoint := ⟨iix, false⟩

/-- Mirror of Rust `InstPoint::new_def`. -/
def InstPoint.new_def (iix : Nat) : InstPoint := ⟨iix, true⟩

/-- Modelled from the spec: points are ordered by instruction index, with
the use sub-point before the def sub-point of the same instruction. -/
def InstPoint.le (a b : InstPoint) : Bool :=
  decide (a.iix < b.iix) ||
    (decide (a.iix = b.iix) && (!a.isDefPoint || b.isDefPoint))

/-- Modelled from the spec: a range fragment is "a contiguous interval of
program points over which a range is live". -/
structure RangeFrag where
  first : InstPoint
  last : InstPoint
  deriving DecidableEq, Repr

/-- Modelled from the spec: a fragment contains a point iff the point lies
in the fragment's interval. -/
def RangeFrag.contains_pt (f : RangeFrag) (pt : InstPoint) : Bool :=
  InstPoint.le f.first pt && InstPoint.le pt f.last

/-- A real (physical-register-bound) live range: its sorted fragments are
stored as indices into the shared fragment environment, plus the is_ref
flag this analysis writes.  Other fields of the Rust struct (the owning
real register, spill cost) play no role in this module. -/
structure RealRange where
  sorted_frags : List Nat
  is_ref : Bool
  deriving DecidableEq, Repr

/-- A virtual live range: its sorted fragments are stored inline, plus the
is_ref flag this analysis writes. -/
structure VirtualRange where
  sorted_frags : List RangeFrag
  is_ref : Bool
  deriving DecidableEq, Repr

/-- Mirror of Rust `RegToRangesMaps`: for each real (resp. virtual)
register index, the list of indices of ranges that register has. -/
structure RegToRangesMaps where
  rreg_to_rlrs_map : List (List Nat)
  vreg_to_vlrs_map : List (List Nat)
  deriving DecidableEq, Repr

/-- Mirror of Rust `MoveInfoElem` (fields dst, src, iix; the remaining
field, an estimated frequency, is ignored by this analysis). -/
structure MoveInfoElem where
  dst : Reg
  src : Reg
  iix : Nat
  deriving DecidableEq, Repr

/-- Mirror of Rust `RangeId`: a tagged identity denoting either a real
range (by RealRangeIx) or a virtual range (by VirtualRangeIx). -/
inductive RangeId where
  | real (ix : Nat)
  | virt (ix : Nat)
  deriving DecidableEq, Repr

/-- Mirror of Rust `RangeId::new_real`. -/
def RangeId.new_real (ix : Nat) : RangeId := RangeId.real ix

/-- Mirror of Rust `RangeId::new_virtual`. -/
def RangeId.new_virtual (ix : Nat) : RangeId := RangeId.virt ix

/-- Mirror of Rust `RangeId::is_real`. -/
def RangeId.is_real : RangeId → Bool
  | RangeId.real _ => true
  | RangeId.virt _ => false

/-- Mirror of Rust struct `BacktrackingReftypeAnalysis`: the environments
the analysis reads (and whose is_ref flags it finally writes). -/
structure BacktrackingReftypeAnalysis where
  rlr_env : List RealRange
  vlr_env : List VirtualRange
  frag_env : List RangeFrag
  reg_to_ranges_maps : RegToRangesMaps
  deriving DecidableEq, Repr

/-- Containment test for a real range's sorted fragments, which are
indices into the fragment environment (`SortedRangeFragIxs::contains_pt`
in the missing data_structures.rs, modelled from the spec; an index with
no fragment behind it is treated as not covering). -/
def rlr_contains_pt (frag_env : List RangeFrag) (rr : RealRange)
    (pt : InstPoint) : Bool :=
  rr.sorted_frags.any fun fix =>
    match frag_env.get? fix with
    | none => false
    | some f => f.contains_pt pt

/-- Containment test for a virtual range's inline sorted fragments
(`SortedRangeFrags::contains_pt`, modelled from the spec). -/
def vlr_contains_pt (vr : VirtualRange) (pt : InstPoint) : Bool :=
  vr.sorted_frags.any fun f => f.contains_pt pt

/-- The real-register arm of `find_range_id_for_reg`: walk the listed
range indices, return the first whose range covers `pt`; reaching the end
of the list, or an index with no range behind it, is a panic (`none`). -/
def findRealIn (a : BacktrackingReftypeAnalysis) (pt : InstPoint) :
    List Nat → Option RangeId
  | [] => none
  | rlrix :: rest =>
    match a.rlr_env.get? rlrix with
    | none => none
    | some rr =>
      if rlr_contains_pt a.frag_env rr pt then some (RangeId.new_real rlrix)
      else findRealIn a pt rest

/-- The virtual-register arm of `find_range_id_for_reg`. -/
def findVirtIn (a : BacktrackingReftypeAnalysis) (pt : InstPoint) :
    List Nat → Option RangeId
  | [] => none
  | vlrix :: rest =>
    match a.vlr_env.get? vlrix with
    | none => none
    | some vr =>
      if vlr_contains_pt vr pt then some (RangeId.new_virtual vlrix)
      else findVirtIn a pt rest

/-- Mirror of `BacktrackingReftypeAnalysis::find_range_id_for_reg`
(analysis_reftypes.rs lines 42-60): find the RangeId related to `reg` and
containing `pt`.  Every Rust panic (register index out of bounds, range
index out of bounds, or fall-through to the explicit panic when no range
covers the point) is `none`. -/
def find_range_id_for_reg (a : BacktrackingReftypeAnalysis)
    (pt : InstPoint) (reg : Reg) : Option RangeId :=
  if reg.is_real then
    match a.reg_to_ranges_maps.rreg_to_rlrs_map.get? reg.get_index with
    | none => none
    | some rlrs => findRealIn a pt rlrs
  else
    match a.reg_to_ranges_maps.vreg_to_vlrs_map.get? reg.get_index with
    | none => none
    | some vlrs => findVirtIn a pt vlrs

/-- Mirror of `BacktrackingReftypeAnalysis::mark_reffy` (lines 62-75),
release semantics: the debug_assert is compiled out; an out-of-bounds
range index is a panic (`none`).  Returns the updated pair of range
environments. -/
def mark_reffy (rlr_env : List RealRange) (vlr_env : List VirtualRange) :
    RangeId → Option (List RealRange × List VirtualRange)
  | RangeId.real ix =>
    match rlr_env.get? ix with
    | none => none
    | some rr => some (rlr_env.set ix { rr with is_ref := true }, vlr_env)
  | RangeId.virt ix =>
    match vlr_env.get? ix with
    | none => none
    | some vr => some (rlr_env, vlr_env.set ix { vr with is_ref := true })

/-- Mirror of `mark_reffy` with the `debug_assert!(!range.is_ref)` kept
(debug-build semantics): marking a range whose flag is already set is an
assertion failure (`none`). -/
def mark_reffy_checked (rlr_env : List RealRange)
    (vlr_env : List VirtualRange) :
    RangeId → Option (List RealRange × List VirtualRange)
  | RangeId.real ix =>
    match rlr_env.get? ix with
    | none => none
    | some rr =>
      if rr.is_ref then none
      else some (rlr_env.set ix { rr with is_ref := true }, vlr_env)
  | RangeId.virt ix =>
    match vlr_env.get? ix with
    | none => none
    | some vr =>
      if vr.is_ref then none
      else some (rlr_env, vlr_env.set ix { vr with is_ref := true })

/-- SparseSet insertion over its list of elements: a no-op when the
element is present, otherwise appended (SparseSets iterate in insertion
order). -/
def insertS (x : RangeId) (l : List RangeId) : List RangeId :=
  if x ∈ l then l else l ++ [x]

/-- Mirror of `BacktrackingReftypeAnalysis::insert_reffy_ranges`
(lines 77-84): add all ranges of the virtual register to the set; an
out-of-bounds virtual register index is a panic (`none`). -/
def insert_reffy_ranges (a : BacktrackingReftypeAnalysis)
    (vreg : VirtualReg) (set : List RangeId) : Option (List RangeId) :=
  match a.reg_to_ranges_maps.vreg_to_vlrs_map.get? vreg.get_index with
  | none => none
  | some vlr_ixs =>
    some (vlr_ixs.foldl (fun s vlr_ix => insertS (RangeId.new_virtual vlr_ix) s) set)

/-- The move graph of stage (1): an association list from a source RangeId
to the SparseSet (element list) of its move destinations. -/
abbrev SuccMap := List (RangeId × List RangeId)

/-- Lookup in the move graph (`succ.get`): first entry with the given
key, empty if absent. -/
def succLookup (succ : SuccMap) (s : RangeId) : List RangeId :=
  match succ with
  | [] => []
  | (k, vs) :: rest => if k = s then vs else succLookup rest s

/-- Edge insertion of stage (1): `succ.get_mut` plus set insert when the
source is present, otherwise a fresh singleton entry (`succ.insert`). -/
def succInsert (succ : SuccMap) (s d : RangeId) : SuccMap :=
  match succ with
  | [] => [(s, [d])]
  | (k, vs) :: rest =>
    if k = s then (k, insertS d vs) :: rest else (k, vs) :: succInsert rest s d

/-- All destination identities appearing in the move graph; the vertices
a DFS can ever push. -/
def succUniv (succ : SuccMap) : Finset RangeId :=
  succ.foldr (fun p acc => p.2.toFinset ∪ acc) ∅

/-- Largest destination-set size in the move graph; bounds how much a
single pop can grow the stack. -/
def maxOut (succ : SuccMap) : Nat :=
  succ.foldr (fun p acc => max p.2.length acc) 0

/-- Whether the top of the work stack is already visited (0 if the stack
is empty or its top is unvisited); part of the termination measure. -/
def topVisited (stack visited : List RangeId) : Nat :=
  match stack with
  | [] => 0
  | x :: _ => if x ∈ visited then 1 else 0

/-- Second component of the DFS termination measure. -/
def dfsM2 (succ : SuccMap) (stack visited : List RangeId) : Nat :=
  topVisited stack visited * (maxOut succ + 1) + stack.length

theorem mem_insertS {x y : RangeId} {l : List RangeId} :
    x ∈ insertS y l ↔ x = y ∨ x ∈ l := by
  unfold insertS
  by_cases h : y ∈ l
  · simp only [if_pos h]
    constructor
    · exact Or.inr
    · rintro (rfl | hx)
      · exact h
      · exact hx
  · simp [if_neg h, or_comm]

theorem insertS_of_mem {y : RangeId} {l : List RangeId} (h : y ∈ l) :
    insertS y l = l := by
  simp [insertS, h]

theorem toFinset_insertS (y : RangeId) (l : List RangeId) :
    (insertS y l).toFinset = insert y l.toFinset := by
  ext x
  simp [mem_insertS, or_comm]

theorem succLookup_sub_univ {succ : SuccMap} {s d : RangeId}
    (h : d ∈ succLookup succ s) : d ∈ succUniv succ := by
  induction succ with
  | nil => simp [succLookup] at h
  | cons p rest ih =>
    rw [succLookup] at h
    rw [succUniv, List.foldr_cons]
    by_cases hk : p.1 = s
    · simp only [hk, if_pos rfl] at h
      exact Finset.mem_union_left _ (List.mem_toFinset.mpr h)
    · rw [if_neg hk] at h
      exact Finset.mem_union_right _ (ih h)

theorem succLookup_length_le (succ : SuccMap) (s : RangeId) :
    (succLookup succ s).length ≤ maxOut succ := by
  induction succ with
  | nil => simp [succLookup, maxOut]
  | cons p rest ih =>
    rw [succLookup]
    rw [maxOut, List.foldr_cons]
    by_cases hk : p.1 = s
    · rw [if_pos hk]
      exact le_max_left _ _
    · rw [if_neg hk]
      exact le_trans ih (le_max_right _ _)

theorem topVisited_le_one (stack visited : List RangeId) :
    topVisited stack visited ≤ 1 := by
  cases stack with
  | nil => simp [topVisited]
  | cons x _ =>
    rw [topVisited]
    by_cases h : x ∈ visited <;> simp [h]

theorem dfs_card_lt (succ : SuccMap) (src : RangeId)
    (rest visited : List RangeId) (h : src ∉ visited) :
    ((succUniv succ ∪
        (((succLookup succ src).filter
            (fun d => !decide (d ∈ insertS src visited))).reverse ++
          rest).toFinset) \ (insertS src visited).toFinset).card <
      ((succUniv succ ∪ (src :: rest).toFinset) \ visited.toFinset).card := by
  apply Finset.card_lt_card
  have hsub :
      (succUniv succ ∪
          (((succLookup succ src).filter
              (fun d => !decide (d ∈ insertS src visited))).reverse ++
            rest).toFinset) \ (insertS src visited).toFinset ⊆
        (succUniv succ ∪ (src :: rest).toFinset) \ visited.toFinset := by
    intro x hx
    rw [Finset.mem_sdiff] at hx ⊢
    obtain ⟨hx1, hx2⟩ := hx
    constructor
    · rw [Finset.mem_union] at hx1 ⊢
      rcases hx1 with hu | hst
      · exact Or.inl hu
      · rw [List.toFinset_append, Finset.mem_union] at hst
        rcases hst with hpush | hrest
        · rw [List.toFinset_reverse, List.mem_toFinset, List.mem_filter] at hpush
          exact Or.inl (succLookup_sub_univ hpush.1)
        · rw [List.mem_toFinset] at hrest
          exact Or.inr (List.mem_toFinset.mpr (List.mem_cons_of_mem _ hrest))
    · intro hxe
      exact hx2 (by
        rw [toFinset_insertS, Finset.mem_insert]
        exact Or.inr hxe)
  refine (Finset.ssubset_iff_of_subset hsub).2 ⟨src, ?_, ?_⟩
  · rw [Finset.mem_sdiff, Finset.mem_union, List.mem_toFinset]
    exact ⟨Or.inr (List.mem_cons_self _ _), fun hc => h (List.mem_toFinset.mp hc)⟩
  · rw [Finset.mem_sdiff, toFinset_insertS]
    intro hc
    exact hc.2 (Finset.mem_insert_self _ _)

theorem dfs_card_eq (succ : SuccMap) (src : RangeId)
    (rest visited : List RangeId) (h : src ∈ visited) :
    (succUniv succ ∪
        (((succLookup succ src).filter
            (fun d => !decide (d ∈ insertS src visited))).reverse ++
          rest).toFinset) \ (insertS src visited).toFinset =
      (succUniv succ ∪ (src :: rest).toFinset) \ visited.toFinset := by
  rw [insertS_of_mem h]
  ext x
  simp only [Finset.mem_sdiff, Finset.mem_union, List.toFinset_append,
    List.toFinset_reverse, List.mem_toFinset, List.mem_filter,
    List.mem_cons, Bool.not_eq_true', decide_eq_false_iff_not]
  constructor
  · rintro ⟨h1, h2⟩
    refine ⟨?_, h2⟩
    rcases h1 with hu | ⟨hl, _⟩ | hr
    · exact Or.inl hu
    · exact Or.inl (succLookup_sub_univ hl)
    · exact Or.inr (Or.inr hr)
  · rintro ⟨h1, h2⟩
    refine ⟨?_, h2⟩
    rcases h1 with hu | rfl | hr
    · exact Or.inl hu
    · exact absurd h h2
    · exact Or.inr (Or.inr hr)

theorem dfsM2_append_le (succ : SuccMap) (l rest visited : List RangeId)
    (hnv : ∀ x ∈ l, x ∉ visited) (hlen : l.length ≤ maxOut succ) :
    dfsM2 succ (l ++ rest) visited ≤ (maxOut succ + 1) + rest.length := by
  cases l with
  | nil =>
    rw [List.nil_append, dfsM2]
    have h2 : topVisited rest visited * (maxOut succ + 1) ≤
        maxOut succ + 1 := by
      have := mul_le_mul_right' (topVisited_le_one rest visited)
        (maxOut succ + 1)
      simpa using this
    exact Nat.add_le_add_right h2 _
  | cons x t =>
    have hx : x ∉ visited := hnv x (List.mem_cons_self _ _)
    rw [List.cons_append, dfsM2, topVisited, if_neg hx]
    simp only [List.length_cons, List.length_append, Nat.zero_mul,
      Nat.zero_add]
    have : t.length + 1 ≤ maxOut succ := by
      simpa using hlen
    omega

theorem dfs_m2_lt (succ : SuccMap) (src : RangeId)
    (rest visited : List RangeId) (h : src ∈ visited) :
    dfsM2 succ
        (((succLookup succ src).filter
            (fun d => !decide (d ∈ insertS src visited))).reverse ++ rest)
        (insertS src visited) <
      dfsM2 succ (src :: rest) visited := by
  rw [insertS_of_mem h]
  have hold : dfsM2 succ (src :: rest) visited =
      (maxOut succ + 1) + rest.length + 1 := by
    rw [dfsM2, topVisited, if_pos h, List.length_cons]
    omega
  rw [hold]
  refine Nat.lt_succ_of_le (dfsM2_append_le succ _ rest visited ?_ ?_)
  · intro x hx
    rw [List.mem_reverse, List.mem_filter] at hx
    simpa using hx.2
  · rw [List.length_reverse]
    exact le_trans (List.length_filter_le _ _) (succLookup_length_le succ src)

/-- Stage (3) inner loop of `core_reftypes_analysis` (lines 178-187): pop
a source range, insert it into the visited set, and push every
not-yet-visited destination of its move-graph edges.  Pushing onto the
Rust stack in iteration order makes the last destination the next one
popped, hence the reversed block at the head of the list (the list head
is the stack top). -/
def dfsLoop (succ : SuccMap) (stack visited : List RangeId) :
    List RangeId :=
  match stack with
  | [] => visited
  | src :: rest =>
    dfsLoop succ
      (((succLookup succ src).filter
          (fun d => !decide (d ∈ insertS src visited))).reverse ++ rest)
      (insertS src visited)
termination_by
  (((succUniv succ ∪ stack.toFinset) \ visited.toFinset).card,
    dfsM2 succ stack visited)
decreasing_by
  rename_i rest
  by_cases h : x ∈ visited
  · rw [Prod.lex_iff]
    exact Or.inr ⟨congrArg Finset.card (dfs_card_eq succ x rest visited h),
      dfs_m2_lt succ x rest visited h⟩
  · exact Prod.Lex.left _ _ (dfs_card_lt succ x rest visited h)

/-- Stage (3) outer loop (lines 174-188): run the inner DFS once per
seed, each time with a stack holding just that seed, threading the
visited set through. -/
def dfsOuter (succ : SuccMap) : List RangeId → List RangeId → List RangeId
  | [], visited => visited
  | s :: rest, visited => dfsOuter succ rest (dfsLoop succ [s] visited)

/-- Stage (1) of `core_reftypes_analysis` (lines 135-158): fold over the
move records, skipping every move whose destination class is not the
reference class, and inserting an edge from the range of the source
register at the move's use point to the range of the destination register
at its def point.  A failing range lookup is a panic (`none`).  The
debug_assert comparing source and destination classes is compiled out. -/
def buildSucc (a : BacktrackingReftypeAnalysis) (reftype_class : RegClass) :
    List MoveInfoElem → SuccMap → Option SuccMap
  | [], succ => some succ
  | m :: rest, succ =>
    if m.dst.get_class = reftype_class then
      match find_range_id_for_reg a (InstPoint.new_use m.iix) m.src with
      | none => none
      | some src_range =>
        match find_range_id_for_reg a (InstPoint.new_def m.iix) m.dst with
        | none => none
        | some dst_range =>
          buildSucc a reftype_class rest (succInsert succ src_range dst_range)
    else buildSucc a reftype_class rest succ

/-- Stage (2) of `core_reftypes_analysis` (lines 160-168): union of
`insert_reffy_ranges` over the client-supplied reftyped virtual registers.
The debug_assert on the vreg's class is compiled out. -/
def buildSeeds (a : BacktrackingReftypeAnalysis) :
    List VirtualReg → List RangeId → Option (List RangeId)
  | [], set => some set
  | vreg :: rest, set =>
    match insert_reffy_ranges a vreg set with
    | none => none
    | some set2 => buildSeeds a rest set2

/-- The final marking step (lines 190-193): `mark_reffy` on every member
of the visited set, in iteration order. -/
def markAll : List RealRange → List VirtualRange → List RangeId →
    Option (List RealRange × List VirtualRange)
  | rlr_env, vlr_env, [] => some (rlr_env, vlr_env)
  | rlr_env, vlr_env, range :: rest =>
    match mark_reffy rlr_env vlr_env range with
    | none => none
    | some rv => markAll rv.1 rv.2 rest

/-- The final marking step under debug-build semantics: `mark_reffy` with
its debug_assert kept. -/
def markAllChecked : List RealRange → List VirtualRange → List RangeId →
    Option (List RealRange × List VirtualRange)
  | rlr_env, vlr_env, [] => some (rlr_env, vlr_env)
  | rlr_env, vlr_env, range :: rest =>
    match mark_reffy_checked rlr_env vlr_env range with
    | none => none
    | some rv => markAllChecked rv.1 rv.2 rest

/-- Mirror of `core_reftypes_analysis` (lines 107-194), instantiated at
the backtracking implementation (as `do_reftypes_analysis` does): build
the move graph, collect the seed ranges, run the DFS transitive closure,
and mark every visited range.  The result is the updated pair of range
environments; `none` is a Rust panic. -/
def core_reftypes_analysis (a : BacktrackingReftypeAnalysis)
    (move_info : List MoveInfoElem) (reftype_class : RegClass)
    (reftyped_vregs : List VirtualReg) :
    Option (List RealRange × List VirtualRange) :=
  match buildSucc a reftype_class move_info [] with
  | none => none
  | some succ =>
    match buildSeeds a reftyped_vregs [] with
    | none => none
    | some reftyped_ranges =>
      markAll a.rlr_env a.vlr_env (dfsOuter succ reftyped_ranges reftyped_ranges)

/-- The visited set `core_reftypes_analysis` computes and then marks:
the same pipeline stopped after stage (3). -/
def analysisVisited (a : BacktrackingReftypeAnalysis)
    (move_info : List MoveInfoElem) (reftype_class : RegClass)
    (reftyped_vregs : List VirtualReg) : Option (List RangeId) :=
  match buildSucc a reftype_class move_info [] with
  | none => none
  | some succ =>
    match buildSeeds a reftyped_vregs [] with
    | none => none
    | some reftyped_ranges =>
      some (dfsOuter succ reftyped_ranges reftyped_ranges)

/-- One iteration of the inner DFS loop as a step function on the
(stack, visited) state, for stating that the loop's stack empties in
finitely many steps; on an empty stack it is the identity. -/
def dfsStep (succ : SuccMap) :
    List RangeId × List RangeId → List RangeId × List RangeId
  | ([], visited) => ([], visited)
  | (src :: rest, visited) =>
    (((succLookup succ src).filter
        (fun d => !decide (d ∈ insertS src visited))).reverse ++ rest,
      insertS src visited)

/-- The inner DFS loop instrumented with a push log: every identity the
loop pushes onto the work stack is recorded together with the visited set
at the moment of the push (the set already holds the popped source, since
the Rust loop inserts the source before scanning its destinations). -/
def dfsLoopLog (succ : SuccMap) (stack visited : List RangeId)
    (log : List (RangeId × List RangeId)) :
    List RangeId × List (RangeId × List RangeId) :=
  match stack with
  | [] => (visited, log)
  | src :: rest =>
    dfsLoopLog succ
      (((succLookup succ src).filter
          (fun d => !decide (d ∈ insertS src visited))).reverse ++ rest)
      (insertS src visited)
      (log ++ ((succLookup succ src).filter
          (fun d => !decide (d ∈ insertS src visited))).map
        (fun d => (d, insertS src visited)))
termination_by
  (((succUniv succ ∪ stack.toFinset) \ visited.toFinset).card,
    dfsM2 succ stack visited)
decreasing_by
  rename_i rest
  by_cases h : x ∈ visited
  · rw [Prod.lex_iff]
    exact Or.inr ⟨congrArg Finset.card (dfs_card_eq succ x rest visited h),
      dfs_m2_lt succ x rest visited h⟩
  · exact Prod.Lex.left _ _ (dfs_card_lt succ x rest visited h)

/-- Stage (3) outer loop instrumented with the push log of its inner
runs (the unguarded initial push of each seed is not logged; only the
pushes guarded by the visited-set membership check are). -/
def dfsOuterLog (succ : SuccMap) :
    List RangeId → List RangeId → List (RangeId × List RangeId) →
    List RangeId × List (RangeId × List RangeId)
  | [], visited, log => (visited, log)
  | s :: rest, visited, log =>
    dfsOuterLog succ rest (dfsLoopLog succ [s] visited log).1
      (dfsLoopLog succ [s] visited log).2

/-- The guarded pushes performed by the whole propagation phase of the
analysis, each with the visited set at the moment of the push. -/
def analysisPushLog (a : BacktrackingReftypeAnalysis)
    (move_info : List MoveInfoElem) (reftype_class : RegClass)
    (reftyped_vregs : List VirtualReg) :
    Option (List (RangeId × List RangeId)) :=
  match buildSucc a reftype_class move_info [] with
  | none => none
  | some succ =>
    match buildSeeds a reftyped_vregs [] with
    | none => none
    | some reftyped_ranges =>
      some (dfsOuterLog succ reftyped_ranges reftyped_ranges []).2

/-- Fuel-indexed twin of `dfsLoop`, used only to evaluate the loop on
concrete inputs (the kernel does not reduce well-founded recursion). -/
def dfsLoopFuel (succ : SuccMap) :
    Nat → List RangeId → List RangeId → Option (List RangeId)
  | 0, _, _ => none
  | _ + 1, [], visited => some visited
  | n + 1, src :: rest, visited =>
    dfsLoopFuel succ n
      (((succLookup succ src).filter
          (fun d => !decide (d ∈ insertS src visited))).reverse ++ rest)
      (insertS src visited)

/-- Fuel-indexed twin of `dfsLoopLog`. -/
def dfsLoopLogFuel (succ : SuccMap) :
    Nat → List RangeId → List RangeId → List (RangeId × List RangeId) →
    Option (List RangeId × List (RangeId × List RangeId))
  | 0, _, _, _ => none
  | _ + 1, [], visited, log => some (visited, log)
  | n + 1, src :: rest, visited, log =>
    dfsLoopLogFuel succ n
      (((succLookup succ src).filter
          (fun d => !decide (d ∈ insertS src visited))).reverse ++ rest)
      (insertS src visited)
      (log ++ ((succLookup succ src).filter
          (fun d => !decide (d ∈ insertS src visited))).map
        (fun d => (d, insertS src visited)))

theorem dfsLoop_nil (succ : SuccMap) (visited : List RangeId) :
    dfsLoop succ [] visited = visited := by
  rw [dfsLoop]

theorem dfsLoop_cons (succ : SuccMap) (src : RangeId)
    (rest visited : List RangeId) :
    dfsLoop succ (src :: rest) visited =
      dfsLoop succ
        (((succLookup succ src).filter
            (fun d => !decide (d ∈ insertS src visited))).reverse ++ rest)
        (insertS src visited) := by
  rw [dfsLoop]

theorem dfsLoopLog_nil (succ : SuccMap) (visited : List RangeId)
    (log : List (RangeId × List RangeId)) :
    dfsLoopLog succ [] visited log = (visited, log) := by
  rw [dfsLoopLog]

theorem dfsLoopLog_cons (succ : SuccMap) (src : RangeId)
    (rest visited : List RangeId) (log : List (RangeId × List RangeId)) :
    dfsLoopLog succ (src :: rest) visited log =
      dfsLoopLog succ
        (((succLookup succ src).filter
            (fun d => !decide (d ∈ insertS src visited))).reverse ++ rest)
        (insertS src visited)
        (log ++ ((succLookup succ src).filter
            (fun d => !decide (d ∈ insertS src visited))).map
          (fun d => (d, insertS src visited))) := by
  rw [dfsLoopLog]

theorem dfsLoopFuel_spec (succ : SuccMap) :
    ∀ n stack visited r, dfsLoopFuel succ n stack visited = some r →
      dfsLoop succ stack visited = r := by
  intro n
  induction n with
  | zero =>
    intro stack visited r h
    simp [dfsLoopFuel] at h
  | succ n ih =>
    intro stack visited r h
    cases stack with
    | nil =>
      simp only [dfsLoopFuel, Option.some.injEq] at h
      rw [dfsLoop_nil]
      exact h
    | cons src rest =>
      rw [dfsLoopFuel] at h
      rw [dfsLoop_cons]
      exact ih _ _ _ h

/-- Reachability in the move graph: an identity is reachable when it is a
seed, or the destination of an edge whose source is reachable. -/
inductive SReach (succ : SuccMap) (seeds : List RangeId) : RangeId → Prop where
  | seed {x : RangeId} : x ∈ seeds → SReach succ seeds x
  | step {x d : RangeId} : SReach succ seeds x → d ∈ succLookup succ x →
      SReach succ seeds d

/-- The edge relation of the claims: a directed edge from `s` to `d`
exists when some move record of the reference class resolves its source
register at the move's use point to `s` and its destination register at
the move's def point to `d`. -/
def MoveEdge (a : BacktrackingReftypeAnalysis)
    (move_info : List MoveInfoElem) (reftype_class : RegClass)
    (s d : RangeId) : Prop :=
  ∃ m ∈ move_info, m.dst.get_class = reftype_class ∧
    find_range_id_for_reg a (InstPoint.new_use m.iix) m.src = some s ∧
    find_range_id_for_reg a (InstPoint.new_def m.iix) m.dst = some d

/-- Reachability along reference-class move edges from the seed set:
the specification's characterisation of the marked set. -/
inductive MoveReach (a : BacktrackingReftypeAnalysis)
    (move_info : List MoveInfoElem) (reftype_class : RegClass)
    (seeds : List RangeId) : RangeId → Prop where
  | seed {x : RangeId} : x ∈ seeds → MoveReach a move_info reftype_class seeds x
  | step {x d : RangeId} : MoveReach a move_info reftype_class seeds x →
      MoveEdge a move_info reftype_class x d →
      MoveReach a move_info reftype_class seeds d

theorem visited_subset_dfsLoop (succ : SuccMap) :
    ∀ stack visited, ∀ x ∈ visited, x ∈ dfsLoop succ stack visited := by
  intro stack visited
  induction stack, visited using dfsLoop.induct succ with
  | case1 visited =>
    intro x hx
    rw [dfsLoop_nil]
    exact hx
  | case2 visited src rest ih =>
    intro x hx
    rw [dfsLoop_cons]
    exact ih x (mem_insertS.mpr (Or.inr hx))

theorem stack_subset_dfsLoop (succ : SuccMap) :
    ∀ stack visited, ∀ x ∈ stack, x ∈ dfsLoop succ stack visited := by
  intro stack visited
  induction stack, visited using dfsLoop.induct succ with
  | case1 visited =>
    intro x hx
    exact absurd hx (List.not_mem_nil x)
  | case2 visited src rest ih =>
    intro x hx
    rw [dfsLoop_cons]
    rcases List.mem_cons.mp hx with rfl | hr
    · exact visited_subset_dfsLoop succ _ _ x (mem_insertS.mpr (Or.inl rfl))
    · exact ih x (List.mem_append_right _ hr)

theorem insertS_nodup {y : RangeId} {l : List RangeId} (h : l.Nodup) :
    (insertS y l).Nodup := by
  unfold insertS
  by_cases hm : y ∈ l
  · rw [if_pos hm]
    exact h
  · rw [if_neg hm, List.nodup_append]
    refine ⟨h, List.nodup_singleton y, ?_⟩
    intro a ha hay
    rw [List.mem_singleton] at hay
    exact hm (hay ▸ ha)

theorem dfsLoop_nodup (succ : SuccMap) :
    ∀ stack visited, visited.Nodup → (dfsLoop succ stack visited).Nodup := by
  intro stack visited
  induction stack, visited using dfsLoop.induct succ with
  | case1 visited =>
    intro h
    rw [dfsLoop_nil]
    exact h
  | case2 visited src rest ih =>
    intro h
    rw [dfsLoop_cons]
    exact ih (insertS_nodup h)

theorem dfsLoop_sound (succ : SuccMap) (P : RangeId → Prop)
    (hstep : ∀ x d, P x → d ∈ succLookup succ x → P d) :
    ∀ stack visited, (∀ x ∈ stack, P x) → (∀ x ∈ visited, P x) →
      ∀ y ∈ dfsLoop succ stack visited, P y := by
  intro stack visited
  induction stack, visited using dfsLoop.induct succ with
  | case1 visited =>
    intro _ hv y hy
    rw [dfsLoop_nil] at hy
    exact hv y hy
  | case2 visited src rest ih =>
    intro hs hv y hy
    rw [dfsLoop_cons] at hy
    refine ih ?_ ?_ y hy
    · intro x hx
      rcases List.mem_append.mp hx with hpush | hrest
      · rw [List.mem_reverse, List.mem_filter] at hpush
        exact hstep src x (hs src (List.mem_cons_self _ _)) hpush.1
      · exact hs x (List.mem_cons_of_mem _ hrest)
    · intro x hx
      rcases mem_insertS.mp hx with rfl | hxv
      · exact hs x (List.mem_cons_self _ _)
      · exact hv x hxv

theorem dfsLoop_closed (succ : SuccMap) (R : List RangeId) :
    ∀ stack visited,
      (∀ v ∈ visited,
        (∀ d ∈ succLookup succ v, d ∈ visited ∨ d ∈ stack) ∨
          v ∈ stack ∨ v ∈ R) →
      ∀ v ∈ dfsLoop succ stack visited,
        (∀ d ∈ succLookup succ v, d ∈ dfsLoop succ stack visited) ∨ v ∈ R := by
  intro stack visited
  induction stack, visited using dfsLoop.induct succ with
  | case1 visited =>
    intro hinv v hv
    rw [dfsLoop_nil] at hv ⊢
    rcases hinv v hv with hd | hs | hR
    · left
      intro d hdm
      rcases hd d hdm with h1 | h2
      · exact h1
      · exact absurd h2 (List.not_mem_nil d)
    · exact absurd hs (List.not_mem_nil v)
    · exact Or.inr hR
  | case2 visited src rest ih =>
    intro hinv v hv
    rw [dfsLoop_cons] at hv ⊢
    refine ih ?_ v hv
    intro w hw
    rcases mem_insertS.mp hw with rfl | hwv
    · left
      intro d hd
      by_cases hdv : d ∈ insertS w visited
      · exact Or.inl hdv
      · right
        apply List.mem_append_left
        rw [List.mem_reverse, List.mem_filter]
        exact ⟨hd, by simpa using hdv⟩
    · rcases hinv w hwv with hd | hs | hR
      · left
        intro d hdm
        rcases hd d hdm with h1 | h2
        · exact Or.inl (mem_insertS.mpr (Or.inr h1))
        · rcases List.mem_cons.mp h2 with rfl | hr
          · exact Or.inl (mem_insertS.mpr (Or.inl rfl))
          · exact Or.inr (List.mem_append_right _ hr)
      · rcases List.mem_cons.mp hs with rfl | hr
        · left
          intro d hd
          by_cases hdv : d ∈ insertS w visited
          · exact Or.inl hdv
          · right
            apply List.mem_append_left
            rw [List.mem_reverse, List.mem_filter]
            exact ⟨hd, by simpa using hdv⟩
        · exact Or.inr (Or.inl (List.mem_append_right _ hr))
      · exact Or.inr (Or.inr hR)

theorem visited_subset_dfsOuter (succ : SuccMap) :
    ∀ seeds visited, ∀ x ∈ visited, x ∈ dfsOuter succ seeds visited := by
  intro seeds
  induction seeds with
  | nil =>
    intro visited x hx
    exact hx
  | cons s rest ih =>
    intro visited x hx
    exact ih _ x (visited_subset_dfsLoop succ [s] visited x hx)

theorem dfsOuter_nodup (succ : SuccMap) :
    ∀ seeds visited, visited.Nodup → (dfsOuter succ seeds visited).Nodup := by
  intro seeds
  induction seeds with
  | nil =>
    intro visited h
    exact h
  | cons s rest ih =>
    intro visited h
    exact ih _ (dfsLoop_nodup succ [s] visited h)

theorem dfsOuter_sound (succ : SuccMap) (P : RangeId → Prop)
    (hstep : ∀ x d, P x → d ∈ succLookup succ x → P d) :
    ∀ seeds visited, (∀ x ∈ seeds, P x) → (∀ x ∈ visited, P x) →
      ∀ y ∈ dfsOuter succ seeds visited, P y := by
  intro seeds
  induction seeds with
  | nil =>
    intro visited _ hv y hy
    exact hv y hy
  | cons s rest ih =>
    intro visited hs hv y hy
    refine ih _ (fun x hx => hs x (List.mem_cons_of_mem _ hx)) ?_ y hy
    exact dfsLoop_sound succ P hstep [s] visited
      (fun x hx => by
        rw [List.mem_singleton] at hx
        exact hx ▸ hs s (List.mem_cons_self _ _)) hv

theorem dfsOuter_closed (succ : SuccMap) :
    ∀ seeds visited,
      (∀ v ∈ visited, (∀ d ∈ succLookup succ v, d ∈ visited) ∨ v ∈ seeds) →
      ∀ v ∈ dfsOuter succ seeds visited, ∀ d ∈ succLookup succ v,
        d ∈ dfsOuter succ seeds visited := by
  intro seeds
  induction seeds with
  | nil =>
    intro visited hinv v hv d hd
    rcases hinv v hv with h1 | h2
    · exact h1 d hd
    · exact absurd h2 (List.not_mem_nil v)
  | cons s rest ih =>
    intro visited hinv v hv d hd
    refine ih (dfsLoop succ [s] visited) ?_ v hv d hd
    intro w hw
    refine dfsLoop_closed succ rest [s] visited ?_ w hw
    intro u hu
    rcases hinv u hu with h1 | h2
    · exact Or.inl (fun e he => Or.inl (h1 e he))
    · rcases List.mem_cons.mp h2 with rfl | hr
      · exact Or.inr (Or.inl (List.mem_singleton_self u))
      · exact Or.inr (Or.inr hr)

theorem dfsOuter_SReach_complete (succ : SuccMap) (seeds : List RangeId) :
    ∀ x, SReach succ seeds x → x ∈ dfsOuter succ seeds seeds := by
  intro x hx
  induction hx with
  | seed hm => exact visited_subset_dfsOuter succ seeds seeds _ hm
  | step _ hd ih =>
    exact dfsOuter_closed succ seeds seeds (fun v hv => Or.inr hv) _ ih _ hd

theorem dfsOuter_SReach_iff (succ : SuccMap) (seeds : List RangeId)
    (x : RangeId) :
    x ∈ dfsOuter succ seeds seeds ↔ SReach succ seeds x := by
  constructor
  · intro hx
    exact dfsOuter_sound succ (SReach succ seeds)
      (fun a d ha hd => SReach.step ha hd) seeds seeds
      (fun a ha => SReach.seed ha) (fun a ha => SReach.seed ha) x hx
  · exact dfsOuter_SReach_complete succ seeds x

theorem dfsLoopLogFuel_spec (succ : SuccMap) :
    ∀ n stack visited log r,
      dfsLoopLogFuel succ n stack visited log = some r →
      dfsLoopLog succ stack visited log = r := by
  intro n
  induction n with
  | zero =>
    intro stack visited log r h
    simp [dfsLoopLogFuel] at h
  | succ n ih =>
    intro stack visited log r h
    cases stack with
    | nil =>
      simp only [dfsLoopLogFuel, Option.some.injEq] at h
      rw [dfsLoopLog_nil]
      exact h
    | cons src rest =>
      rw [dfsLoopLogFuel] at h
      rw [dfsLoopLog_cons]
      exact ih _ _ _ _ h

theorem succLookup_succInsert (succ : SuccMap) (s d s2 : RangeId) :
    succLookup (succInsert succ s d) s2 =
      if s2 = s then insertS d (succLookup succ s2)
      else succLookup succ s2 := by
  induction succ with
  | nil =>
    by_cases h : s2 = s
    · subst h
      simp [succInsert, succLookup, insertS]
    · have h2 : ¬ s = s2 := fun he => h he.symm
      simp [succInsert, succLookup, h, h2]
  | cons p rest ih =>
    obtain ⟨k, vs⟩ := p
    rw [succInsert]
    by_cases hk : k = s
    · rw [if_pos hk]
      by_cases h2 : s2 = s
      · subst h2
        rw [succLookup, succLookup, if_pos rfl, if_pos hk, if_pos hk]
      · have hks2 : ¬ k = s2 := fun he => h2 (he ▸ hk)
        rw [succLookup, succLookup, if_neg hks2, if_neg hks2, if_neg h2]
    · rw [if_neg hk]
      by_cases hks2 : k = s2
      · have h2 : ¬ s2 = s := fun he => hk (hks2.symm ▸ he.symm ▸ rfl)
        rw [succLookup, succLookup, if_pos hks2, if_pos hks2, if_neg h2]
      · rw [succLookup, succLookup, if_neg hks2, if_neg hks2, ih]

theorem mem_succLookup_succInsert {succ : SuccMap} {s d s2 d2 : RangeId} :
    d2 ∈ succLookup (succInsert succ s d) s2 ↔
      d2 ∈ succLookup succ s2 ∨ (s2 = s ∧ d2 = d) := by
  rw [succLookup_succInsert]
  by_cases h : s2 = s
  · rw [if_pos h, mem_insertS]
    tauto
  · rw [if_neg h]
    tauto

theorem buildSucc_mem (a : BacktrackingReftypeAnalysis) (rc : RegClass) :
    ∀ (moves : List MoveInfoElem) (succ0 succ : SuccMap),
      buildSucc a rc moves succ0 = some succ →
      ∀ s d, d ∈ succLookup succ s ↔
        d ∈ succLookup succ0 s ∨ MoveEdge a moves rc s d := by
  intro moves
  induction moves with
  | nil =>
    intro succ0 succ h s d
    simp only [buildSucc, Option.some.injEq] at h
    subst h
    simp [MoveEdge]
  | cons m rest ih =>
    intro succ0 succ h s d
    rw [buildSucc] at h
    by_cases hc : m.dst.get_class = rc
    · rw [if_pos hc] at h
      cases hsrc : find_range_id_for_reg a (InstPoint.new_use m.iix) m.src with
      | none =>
        rw [hsrc] at h
        exact absurd h (by simp)
      | some s1 =>
        rw [hsrc] at h
        cases hdst : find_range_id_for_reg a (InstPoint.new_def m.iix) m.dst with
        | none =>
          rw [hdst] at h
          exact absurd h (by simp)
        | some d1 =>
          rw [hdst] at h
          rw [ih _ _ h s d, mem_succLookup_succInsert]
          constructor
          · rintro ((h0 | ⟨rfl, rfl⟩) | ⟨m2, hm2, hcc, hs2, hd2⟩)
            · exact Or.inl h0
            · exact Or.inr ⟨m, List.mem_cons_self _ _, hc, hsrc, hdst⟩
            · exact Or.inr ⟨m2, List.mem_cons_of_mem _ hm2, hcc, hs2, hd2⟩
          · rintro (h0 | ⟨m2, hm2, hcc, hs2, hd2⟩)
            · exact Or.inl (Or.inl h0)
            · rcases List.mem_cons.mp hm2 with rfl | hm2r
              · rw [hsrc] at hs2
                rw [hdst] at hd2
                obtain rfl : s1 = s := Option.some.inj hs2
                obtain rfl : d1 = d := Option.some.inj hd2
                exact Or.inl (Or.inr ⟨rfl, rfl⟩)
              · exact Or.inr ⟨m2, hm2r, hcc, hs2, hd2⟩
    · rw [if_neg hc] at h
      rw [ih _ _ h s d]
      constructor
      · rintro (h0 | ⟨m2, hm2, hcc, hs2, hd2⟩)
        · exact Or.inl h0
        · exact Or.inr ⟨m2, List.mem_cons_of_mem _ hm2, hcc, hs2, hd2⟩
      · rintro (h0 | ⟨m2, hm2, hcc, hs2, hd2⟩)
        · exact Or.inl h0
        · rcases List.mem_cons.mp hm2 with rfl | hm2r
          · exact absurd hcc hc
          · exact Or.inr ⟨m2, hm2r, hcc, hs2, hd2⟩

theorem buildSucc_mem_nil {a : BacktrackingReftypeAnalysis} {rc : RegClass}
    {moves : List MoveInfoElem} {succ : SuccMap}
    (h : buildSucc a rc moves [] = some succ) (s d : RangeId) :
    d ∈ succLookup succ s ↔ MoveEdge a moves rc s d := by
  rw [buildSucc_mem a rc moves [] succ h s d]
  simp [succLookup]

theorem SReach_iff_MoveReach {a : BacktrackingReftypeAnalysis}
    {rc : RegClass} {moves : List MoveInfoElem} {succ : SuccMap}
    {seeds : List RangeId}
    (h : buildSucc a rc moves [] = some succ) (x : RangeId) :
    SReach succ seeds x ↔ MoveReach a moves rc seeds x := by
  constructor
  · intro hx
    induction hx with
    | seed hm => exact MoveReach.seed hm
    | step _ hd ih => exact MoveReach.step ih ((buildSucc_mem_nil h _ _).mp hd)
  · intro hx
    induction hx with
    | seed hm => exact SReach.seed hm
    | step _ hd ih => exact SReach.step ih ((buildSucc_mem_nil h _ _).mpr hd)

/-- C1: for every input on which the move-graph construction and seed
collection succeed, the visited set computed (and then marked) by
core_reftypes_analysis contains an identity iff that identity is
reachable in the move graph (edges from reference-class moves only, from
the source range at the move's use point to the destination range at its
def point) by zero or more edges from the seed set; every reachable
identity is in it and no other, and the characterisation is traversal
-order-free, so the set is independent of traversal order. -/
theorem reftypes_analysis_exact_reachability
    (a : BacktrackingReftypeAnalysis) (move_info : List MoveInfoElem)
    (reftype_class : RegClass) (reftyped_vregs : List VirtualReg)
    (succ : SuccMap) (seeds : List RangeId)
    (hsucc : buildSucc a reftype_class move_info [] = some succ)
    (hseeds : buildSeeds a reftyped_vregs [] = some seeds) :
    analysisVisited a move_info reftype_class reftyped_vregs =
        some (dfsOuter succ seeds seeds) ∧
      ∀ x, x ∈ dfsOuter succ seeds seeds ↔
        MoveReach a move_info reftype_class seeds x := by
  constructor
  · unfold analysisVisited
    rw [hsucc, hseeds]
  · intro x
    rw [dfsOuter_SReach_iff]
    exact SReach_iff_MoveReach hsucc x

theorem dfsLoop_empty_single (visited : List RangeId) (s : RangeId)
    (h : s ∈ visited) : dfsLoop [] [s] visited = visited := by
  rw [dfsLoop_cons, insertS_of_mem h]
  simp only [succLookup, List.filter_nil, List.reverse_nil, List.nil_append]
  exact dfsLoop_nil [] visited

theorem dfsOuter_empty_succ : ∀ (seeds visited : List RangeId),
    (∀ s ∈ seeds, s ∈ visited) → dfsOuter [] seeds visited = visited := by
  intro seeds
  induction seeds with
  | nil =>
    intro visited _
    rfl
  | cons s rest ih =>
    intro visited h
    show dfsOuter [] rest (dfsLoop [] [s] visited) = visited
    rw [dfsLoop_empty_single visited s (h s (List.mem_cons_self _ _))]
    exact ih visited (fun x hx => h x (List.mem_cons_of_mem _ hx))

/-- C7: with an empty move-record list the analysis's final visited set
(the set it marks) is exactly the seed set, the union over the supplied
seed vregs of insert_reffy_ranges, with nothing else: the two pipelines
agree as Options, panics included. -/
theorem empty_move_list_marks_exactly_seeds
    (a : BacktrackingReftypeAnalysis) (reftype_class : RegClass)
    (reftyped_vregs : List VirtualReg) :
    analysisVisited a [] reftype_class reftyped_vregs =
      buildSeeds a reftyped_vregs [] := by
  have hred : analysisVisited a [] reftype_class reftyped_vregs =
      (match buildSeeds a reftyped_vregs [] with
        | none => none
        | some seeds => some (dfsOuter [] seeds seeds)) := rfl
  rw [hred]
  cases h : buildSeeds a reftyped_vregs [] with
  | none => rfl
  | some seeds =>
    exact congrArg some (dfsOuter_empty_succ seeds seeds (fun s hs => hs))

/-- Decidable statement of the claims' failure condition: no live range
in the register's range list covers the given point (a register index
outside the map, or a dangling range index, has no covering range). -/
def no_covering_range (a : BacktrackingReftypeAnalysis) (pt : InstPoint)
    (reg : Reg) : Bool :=
  if reg.is_real then
    match a.reg_to_ranges_maps.rreg_to_rlrs_map.get? reg.get_index with
    | none => true
    | some rlrs =>
      rlrs.all fun rlrix =>
        match a.rlr_env.get? rlrix with
        | none => true
        | some rr => !rlr_contains_pt a.frag_env rr pt
  else
    match a.reg_to_ranges_maps.vreg_to_vlrs_map.get? reg.get_index with
    | none => true
    | some vlrs =>
      vlrs.all fun vlrix =>
        match a.vlr_env.get? vlrix with
        | none => true
        | some vr => !vlr_contains_pt vr pt

/-- The is_ref flag of the range an identity denotes, if any. -/
def is_ref_of (rlr_env : List RealRange) (vlr_env : List VirtualRange) :
    RangeId → Option Bool
  | RangeId.real ix => (rlr_env.get? ix).map RealRange.is_ref
  | RangeId.virt ix => (vlr_env.get? ix).map VirtualRange.is_ref

theorem findRealIn_none_of_all (a : BacktrackingReftypeAnalysis)
    (pt : InstPoint) :
    ∀ rlrs : List Nat,
      (rlrs.all fun rlrix =>
        match a.rlr_env.get? rlrix with
        | none => true
        | some rr => !rlr_contains_pt a.frag_env rr pt) = true →
      findRealIn a pt rlrs = none := by
  intro rlrs
  induction rlrs with
  | nil =>
    intro _
    rfl
  | cons ix rest ih =>
    intro h
    rw [List.all_cons, Bool.and_eq_true] at h
    rw [findRealIn]
    cases hg : a.rlr_env.get? ix with
    | none => rfl
    | some rr =>
      have h1 := h.1
      rw [hg] at h1
      have hb : rlr_contains_pt a.frag_env rr pt = false := by
        simpa using h1
      simp only [hb, Bool.false_eq_true, if_false]
      exact ih h.2

theorem findVirtIn_none_of_all (a : BacktrackingReftypeAnalysis)
    (pt : InstPoint) :
    ∀ vlrs : List Nat,
      (vlrs.all fun vlrix =>
        match a.vlr_env.get? vlrix with
        | none => true
        | some vr => !vlr_contains_pt vr pt) = true →
      findVirtIn a pt vlrs = none := by
  intro vlrs
  induction vlrs with
  | nil =>
    intro _
    rfl
  | cons ix rest ih =>
    intro h
    rw [List.all_cons, Bool.and_eq_true] at h
    rw [findVirtIn]
    cases hg : a.vlr_env.get? ix with
    | none => rfl
    | some vr =>
      have h1 := h.1
      rw [hg] at h1
      have hb : vlr_contains_pt vr pt = false := by
        simpa using h1
      simp only [hb, Bool.false_eq_true, if_false]
      exact ih h.2

theorem find_none_of_no_covering (a : BacktrackingReftypeAnalysis)
    (pt : InstPoint) (reg : Reg)
    (h : no_covering_range a pt reg = true) :
    find_range_id_for_reg a pt reg = none := by
  rw [no_covering_range] at h
  rw [find_range_id_for_reg]
  by_cases hr : reg.is_real = true
  · rw [if_pos hr] at h ⊢
    cases hg : a.reg_to_ranges_maps.rreg_to_rlrs_map.get? reg.get_index with
    | none => rfl
    | some rlrs =>
      rw [hg] at h
      exact findRealIn_none_of_all a pt rlrs h
  · rw [if_neg hr] at h ⊢
    cases hg : a.reg_to_ranges_maps.vreg_to_vlrs_map.get? reg.get_index with
    | none => rfl
    | some vlrs =>
      rw [hg] at h
      exact findVirtIn_none_of_all a pt vlrs h

theorem buildSucc_none_of_find_none (a : BacktrackingReftypeAnalysis)
    (rc : RegClass) :
    ∀ (moves : List MoveInfoElem) (m : MoveInfoElem) (succ0 : SuccMap),
      m ∈ moves → m.dst.get_class = rc →
      (find_range_id_for_reg a (InstPoint.new_use m.iix) m.src = none ∨
        find_range_id_for_reg a (InstPoint.new_def m.iix) m.dst = none) →
      buildSucc a rc moves succ0 = none := by
  intro moves
  induction moves with
  | nil =>
    intro m succ0 hm
    exact absurd hm (List.not_mem_nil m)
  | cons m0 rest ih =>
    intro m succ0 hm hc hf
    rw [buildSucc]
    rcases List.mem_cons.mp hm with rfl | hmr
    · rw [if_pos hc]
      rcases hf with h1 | h2
      · rw [h1]
      · cases hsrc : find_range_id_for_reg a (InstPoint.new_use m.iix) m.src
          with
        | none => rfl
        | some s1 => rw [h2]
    · by_cases hc0 : m0.dst.get_class = rc
      · rw [if_pos hc0]
        cases hsrc : find_range_id_for_reg a (InstPoint.new_use m0.iix) m0.src
            with
        | none => rfl
        | some s1 =>
          cases hdst : find_range_id_for_reg a (InstPoint.new_def m0.iix)
              m0.dst with
          | none => rfl
          | some d1 => exact ih m _ hmr hc hf
      · rw [if_neg hc0]
        exact ih m _ hmr hc hf

/-- C2: a qualifying move record (reference class) whose source register
at the move's use point, or destination register at its def point, has no
covering live range in that register's range list makes
find_range_id_for_reg fail fatally (none, a panic), and the analysis as a
whole returns no result at all: no partial marking is produced. -/
theorem unresolvable_qualifying_move_panics
    (a : BacktrackingReftypeAnalysis) (move_info : List MoveInfoElem)
    (reftype_class : RegClass) (reftyped_vregs : List VirtualReg)
    (m : MoveInfoElem) (hm : m ∈ move_info)
    (hc : m.dst.get_class = reftype_class)
    (hnc : no_covering_range a (InstPoint.new_use m.iix) m.src = true ∨
      no_covering_range a (InstPoint.new_def m.iix) m.dst = true) :
    (find_range_id_for_reg a (InstPoint.new_use m.iix) m.src = none ∨
        find_range_id_for_reg a (InstPoint.new_def m.iix) m.dst = none) ∧
      core_reftypes_analysis a move_info reftype_class reftyped_vregs =
        none ∧
      analysisVisited a move_info reftype_class reftyped_vregs = none := by
  have hf := hnc.imp (find_none_of_no_covering a _ m.src)
    (find_none_of_no_covering a _ m.dst)
  have hb : buildSucc a reftype_class move_info [] = none :=
    buildSucc_none_of_find_none a reftype_class move_info m [] hm hc hf
  refine ⟨hf, ?_, ?_⟩
  · unfold core_reftypes_analysis
    rw [hb]
  · unfold analysisVisited
    rw [hb]

theorem buildSucc_skip (a : BacktrackingReftypeAnalysis) (rc : RegClass)
    (m : MoveInfoElem) (hc : ¬ m.dst.get_class = rc) :
    ∀ (l1 l2 : List MoveInfoElem) (succ0 : SuccMap),
      buildSucc a rc (l1 ++ m :: l2) succ0 =
        buildSucc a rc (l1 ++ l2) succ0 := by
  intro l1
  induction l1 with
  | nil =>
    intro l2 succ0
    rw [List.nil_append, List.nil_append, buildSucc, if_neg hc]
  | cons m0 r ih =>
    intro l2 succ0
    rw [List.cons_append, List.cons_append, buildSucc, buildSucc]
    by_cases hc0 : m0.dst.get_class = rc
    · rw [if_pos hc0, if_pos hc0]
      cases hsrc : find_range_id_for_reg a (InstPoint.new_use m0.iix) m0.src
          with
      | none => rfl
      | some s1 =>
        cases hdst : find_range_id_for_reg a (InstPoint.new_def m0.iix)
            m0.dst with
        | none => rfl
        | some d1 => exact ih l2 (succInsert succ0 s1 d1)
    · rw [if_neg hc0, if_neg hc0]
      exact ih l2 succ0

/-- C3: a move record whose class (the class of its destination register,
which by the module's invariant equals its source's) differs from the
reference class contributes nothing: removing it from anywhere in the
move list leaves the entire analysis result, and the visited set it
marks, unchanged. -/
theorem non_reference_class_move_no_effect
    (a : BacktrackingReftypeAnalysis) (l1 l2 : List MoveInfoElem)
    (m : MoveInfoElem) (reftype_class : RegClass)
    (reftyped_vregs : List VirtualReg)
    (hc : ¬ m.dst.get_class = reftype_class) :
    core_reftypes_analysis a (l1 ++ m :: l2) reftype_class reftyped_vregs =
        core_reftypes_analysis a (l1 ++ l2) reftype_class reftyped_vregs ∧
      analysisVisited a (l1 ++ m :: l2) reftype_class reftyped_vregs =
        analysisVisited a (l1 ++ l2) reftype_class reftyped_vregs := by
  have hb := buildSucc_skip a reftype_class m hc l1 l2 []
  constructor
  · unfold core_reftypes_analysis
    rw [hb]
  · unfold analysisVisited
    rw [hb]

theorem findRealIn_is_real (a : BacktrackingReftypeAnalysis)
    (pt : InstPoint) :
    ∀ (rlrs : List Nat) (rid : RangeId),
      findRealIn a pt rlrs = some rid → rid.is_real = true := by
  intro rlrs
  induction rlrs with
  | nil =>
    intro rid h
    exact absurd h (by rw [findRealIn]; simp)
  | cons ix rest ih =>
    intro rid h
    rw [findRealIn] at h
    cases hg : a.rlr_env.get? ix with
    | none =>
      rw [hg] at h
      exact absurd h (by simp)
    | some rr =>
      simp only [hg] at h
      by_cases hcp : rlr_contains_pt a.frag_env rr pt = true
      · rw [if_pos hcp] at h
        obtain rfl : RangeId.new_real ix = rid := Option.some.inj h
        rfl
      · rw [if_neg hcp] at h
        exact ih rid h

theorem findVirtIn_is_virt (a : BacktrackingReftypeAnalysis)
    (pt : InstPoint) :
    ∀ (vlrs : List Nat) (rid : RangeId),
      findVirtIn a pt vlrs = some rid → rid.is_real = false := by
  intro vlrs
  induction vlrs with
  | nil =>
    intro rid h
    exact absurd h (by rw [findVirtIn]; simp)
  | cons ix rest ih =>
    intro rid h
    rw [findVirtIn] at h
    cases hg : a.vlr_env.get? ix with
    | none =>
      rw [hg] at h
      exact absurd h (by simp)
    | some vr =>
      simp only [hg] at h
      by_cases hcp : vlr_contains_pt vr pt = true
      · rw [if_pos hcp] at h
        obtain rfl : RangeId.new_virtual ix = rid := Option.some.inj h
        rfl
      · rw [if_neg hcp] at h
        exact ih rid h

/-- C10: find_range_id_for_reg only ever resolves a register to a range
identity of the register's own kind: a real register yields a real-range
identity and a virtual register a virtual-range identity, so every
identity it feeds into the move graph and visited set denotes a range of
the same kind as the register it was resolved from. -/
theorem find_range_id_matches_reg_kind
    (a : BacktrackingReftypeAnalysis) (pt : InstPoint) (reg : Reg)
    (rid : RangeId) (h : find_range_id_for_reg a pt reg = some rid) :
    rid.is_real = reg.is_real := by
  rw [find_range_id_for_reg] at h
  by_cases hr : reg.is_real = true
  · rw [if_pos hr] at h
    rw [hr]
    cases hg : a.reg_to_ranges_maps.rreg_to_rlrs_map.get? reg.get_index with
    | none =>
      rw [hg] at h
      exact absurd h (by simp)
    | some rlrs =>
      rw [hg] at h
      exact findRealIn_is_real a pt rlrs rid h
  · rw [if_neg hr] at h
    rw [Bool.not_eq_true] at hr
    rw [hr]
    cases hg : a.reg_to_ranges_maps.vreg_to_vlrs_map.get? reg.get_index with
    | none =>
      rw [hg] at h
      exact absurd h (by simp)
    | some vlrs =>
      rw [hg] at h
      exact findVirtIn_is_virt a pt vlrs rid h

/-- C4: mark_reffy is idempotent under release semantics (the
debug_assert is compiled out): marking an identity a second time neither
fails nor changes anything beyond the first call, and after a successful
call the denoted range's is-reference flag is true. -/
theorem mark_reffy_idempotent (rlr_env : List RealRange)
    (vlr_env : List VirtualRange) (range : RangeId) :
    ((mark_reffy rlr_env vlr_env range).bind fun rv =>
        mark_reffy rv.1 rv.2 range) = mark_reffy rlr_env vlr_env range ∧
      ∀ rv, mark_reffy rlr_env vlr_env range = some rv →
        is_ref_of rv.1 rv.2 range = some true := by
  cases range with
  | real ix =>
    cases hg : rlr_env.get? ix with
    | none =>
      constructor
      · rw [mark_reffy, hg]
        rfl
      · intro rv hrv
        rw [mark_reffy, hg] at hrv
        exact absurd hrv (by simp)
    | some rr =>
      have hlt : ix < rlr_env.length := by
        by_contra hge
        rw [List.get?_eq_none.mpr (le_of_not_lt hge)] at hg
        exact Option.noConfusion hg
      have hset : (rlr_env.set ix { rr with is_ref := true }).get? ix =
          some { rr with is_ref := true } :=
        List.get?_set_eq_of_lt _ (by simpa using hlt)
      constructor
      · simp only [mark_reffy, hg, Option.some_bind, hset, List.set_set]
      · intro rv hrv
        simp only [mark_reffy, hg, Option.some.injEq] at hrv
        rw [← hrv, is_ref_of, hset]
        rfl
  | virt ix =>
    cases hg : vlr_env.get? ix with
    | none =>
      constructor
      · rw [mark_reffy, hg]
        rfl
      · intro rv hrv
        rw [mark_reffy, hg] at hrv
        exact absurd hrv (by simp)
    | some vr =>
      have hlt : ix < vlr_env.length := by
        by_contra hge
        rw [List.get?_eq_none.mpr (le_of_not_lt hge)] at hg
        exact Option.noConfusion hg
      have hset : (vlr_env.set ix { vr with is_ref := true }).get? ix =
          some { vr with is_ref := true } :=
        List.get?_set_eq_of_lt _ (by simpa using hlt)
      constructor
      · simp only [mark_reffy, hg, Option.some_bind, hset, List.set_set]
      · intro rv hrv
        simp only [mark_reffy, hg, Option.some.injEq] at hrv
        rw [← hrv, is_ref_of, hset]
        rfl

theorem markAll_frame :
    ∀ (ids : List RangeId) (rlr : List RealRange) (vlr : List VirtualRange)
      (out : List RealRange × List VirtualRange),
      markAll rlr vlr ids = some out →
      ∀ ix : Nat,
        out.1.get? ix = (rlr.get? ix).map
          (fun rr => if RangeId.real ix ∈ ids then { rr with is_ref := true }
            else rr) ∧
        out.2.get? ix = (vlr.get? ix).map
          (fun vr => if RangeId.virt ix ∈ ids then { vr with is_ref := true }
            else vr) := by
  intro ids
  induction ids with
  | nil =>
    intro rlr vlr out h ix
    simp only [markAll, Option.some.injEq] at h
    subst h
    constructor <;> simp
  | cons id0 rest ih =>
    intro rlr vlr out h ix
    rw [markAll] at h
    cases id0 with
    | real j =>
      cases hg : rlr.get? j with
      | none =>
        rw [mark_reffy, hg] at h
        exact absurd h (by simp)
      | some rr =>
        rw [mark_reffy] at h
        simp only [hg] at h
        have hlt : j < rlr.length := by
          by_contra hge
          rw [List.get?_eq_none.mpr (le_of_not_lt hge)] at hg
          exact Option.noConfusion hg
        obtain ⟨h1, h2⟩ :=
          ih (rlr.set j { rr with is_ref := true }) vlr out h ix
        constructor
        · rw [h1]
          by_cases hij : ix = j
          · subst hij
            rw [List.get?_set_eq_of_lt _ (by simpa using hlt), hg]
            by_cases hmem : RangeId.real ix ∈ rest <;>
              simp [hmem, List.mem_cons]
          · rw [List.get?_set_ne _ rlr (fun he => hij he.symm)]
            have hne : ¬ (RangeId.real ix = RangeId.real j) := by
              simpa using hij
            by_cases hmem : RangeId.real ix ∈ rest <;>
              simp [hmem, List.mem_cons, hne]
        · rw [h2]
          have hne : ¬ (RangeId.virt ix = RangeId.real j) := by simp
          by_cases hmem : RangeId.virt ix ∈ rest <;>
            simp [hmem, List.mem_cons, hne]
    | virt j =>
      cases hg : vlr.get? j with
      | none =>
        rw [mark_reffy, hg] at h
        exact absurd h (by simp)
      | some vr =>
        rw [mark_reffy] at h
        simp only [hg] at h
        have hlt : j < vlr.length := by
          by_contra hge
          rw [List.get?_eq_none.mpr (le_of_not_lt hge)] at hg
          exact Option.noConfusion hg
        obtain ⟨h1, h2⟩ :=
          ih rlr (vlr.set j { vr with is_ref := true }) out h ix
        constructor
        · rw [h1]
          have hne : ¬ (RangeId.real ix = RangeId.virt j) := by simp
          by_cases hmem : RangeId.real ix ∈ rest <;>
            simp [hmem, List.mem_cons, hne]
        · rw [h2]
          by_cases hij : ix = j
          · subst hij
            rw [List.get?_set_eq_of_lt _ (by simpa using hlt), hg]
            by_cases hmem : RangeId.virt ix ∈ rest <;>
              simp [hmem, List.mem_cons]
          · rw [List.get?_set_ne _ vlr (fun he => hij he.symm)]
            have hne : ¬ (RangeId.virt ix = RangeId.virt j) := by
              simpa using hij
            by_cases hmem : RangeId.virt ix ∈ rest <;>
              simp [hmem, List.mem_cons, hne]

theorem core_markAll (a : BacktrackingReftypeAnalysis)
    (move_info : List MoveInfoElem) (reftype_class : RegClass)
    (reftyped_vregs : List VirtualReg) (vis : List RangeId)
    (out : List RealRange × List VirtualRange)
    (hv : analysisVisited a move_info reftype_class reftyped_vregs = some vis)
    (hc : core_reftypes_analysis a move_info reftype_class reftyped_vregs =
      some out) :
    markAll a.rlr_env a.vlr_env vis = some out := by
  unfold analysisVisited at hv
  unfold core_reftypes_analysis at hc
  cases hbs : buildSucc a reftype_class move_info [] with
  | none =>
    rw [hbs] at hv
    exact absurd hv (by simp)
  | some succ =>
    simp only [hbs] at hv hc
    cases hsd : buildSeeds a reftyped_vregs [] with
    | none =>
      rw [hsd] at hv
      exact absurd hv (by simp)
    | some seeds =>
      simp only [hsd, Option.some.injEq] at hv hc
      rw [← hv]
      exact hc

theorem foldl_insertS_nodup :
    ∀ (l : List Nat) (s : List RangeId), s.Nodup →
      (l.foldl (fun s vlr_ix => insertS (RangeId.new_virtual vlr_ix) s)
        s).Nodup := by
  intro l
  induction l with
  | nil =>
    intro s h
    exact h
  | cons ix rest ih =>
    intro s h
    exact ih _ (insertS_nodup h)

theorem buildSeeds_nodup (a : BacktrackingReftypeAnalysis) :
    ∀ (vregs : List VirtualReg) (set seeds : List RangeId),
      buildSeeds a vregs set = some seeds → set.Nodup → seeds.Nodup := by
  intro vregs
  induction vregs with
  | nil =>
    intro set seeds h hnd
    simp only [buildSeeds, Option.some.injEq] at h
    exact h ▸ hnd
  | cons v rest ih =>
    intro set seeds h hnd
    rw [buildSeeds, insert_reffy_ranges] at h
    cases hg : a.reg_to_ranges_maps.vreg_to_vlrs_map.get? v.get_index with
    | none =>
      rw [hg] at h
      exact absurd h (by simp)
    | some vlr_ixs =>
      simp only [hg] at h
      exact ih _ seeds h (foldl_insertS_nodup vlr_ixs set hnd)

theorem analysisVisited_nodup (a : BacktrackingReftypeAnalysis)
    (move_info : List MoveInfoElem) (reftype_class : RegClass)
    (reftyped_vregs : List VirtualReg) (vis : List RangeId)
    (hv : analysisVisited a move_info reftype_class reftyped_vregs =
      some vis) : vis.Nodup := by
  unfold analysisVisited at hv
  cases hbs : buildSucc a reftype_class move_info [] with
  | none =>
    rw [hbs] at hv
    exact absurd hv (by simp)
  | some succ =>
    simp only [hbs] at hv
    cases hsd : buildSeeds a reftyped_vregs [] with
    | none =>
      rw [hsd] at hv
      exact absurd hv (by simp)
    | some seeds =>
      simp only [hsd, Option.some.injEq] at hv
      rw [← hv]
      exact dfsOuter_nodup succ seeds seeds
        (buildSeeds_nodup a reftyped_vregs [] seeds hsd List.nodup_nil)

/-- C6: the only change the analysis makes to the live-range storage is
setting the is-reference flag of the ranges in its final visited set, in
the final marking step: a range whose identity is not in the visited set
comes out with all fields unchanged (flag included), and a visited range
comes out with all fields other than the flag (its fragment collection)
unchanged and the flag set; the fragment environment and the
register-to-ranges maps are read-only inputs the analysis never writes. -/
theorem analysis_mutates_only_visited_flags
    (a : BacktrackingReftypeAnalysis) (move_info : List MoveInfoElem)
    (reftype_class : RegClass) (reftyped_vregs : List VirtualReg)
    (vis : List RangeId) (out : List RealRange × List VirtualRange)
    (hv : analysisVisited a move_info reftype_class reftyped_vregs = some vis)
    (hc : core_reftypes_analysis a move_info reftype_class reftyped_vregs =
      some out) :
    ∀ ix : Nat,
      out.1.get? ix = (a.rlr_env.get? ix).map
        (fun rr => if RangeId.real ix ∈ vis then { rr with is_ref := true }
          else rr) ∧
      out.2.get? ix = (a.vlr_env.get? ix).map
        (fun vr => if RangeId.virt ix ∈ vis then { vr with is_ref := true }
          else vr) :=
  markAll_frame vis a.rlr_env a.vlr_env out
    (core_markAll a move_info reftype_class reftyped_vregs vis out hv hc)

theorem is_ref_of_mark_other {rlr : List RealRange}
    {vlr : List VirtualRange} {id0 : RangeId}
    {rv : List RealRange × List VirtualRange}
    (h : mark_reffy rlr vlr id0 = some rv) (id : RangeId) (hne : id ≠ id0) :
    is_ref_of rv.1 rv.2 id = is_ref_of rlr vlr id := by
  cases id0 with
  | real j =>
    cases hg : rlr.get? j with
    | none =>
      rw [mark_reffy, hg] at h
      exact absurd h (by simp)
    | some rr =>
      rw [mark_reffy] at h
      simp only [hg, Option.some.injEq] at h
      rw [← h]
      cases id with
      | real ix =>
        have hij : ix ≠ j := fun he => hne (by rw [he])
        rw [is_ref_of, is_ref_of, List.get?_set_ne _ rlr (fun he => hij he.symm)]
      | virt ix => rfl
  | virt j =>
    cases hg : vlr.get? j with
    | none =>
      rw [mark_reffy, hg] at h
      exact absurd h (by simp)
    | some vr =>
      rw [mark_reffy] at h
      simp only [hg, Option.some.injEq] at h
      rw [← h]
      cases id with
      | real ix => rfl
      | virt ix =>
        have hij : ix ≠ j := fun he => hne (by rw [he])
        rw [is_ref_of, is_ref_of, List.get?_set_ne _ vlr (fun he => hij he.symm)]

theorem markAll_some_is_ref_isSome :
    ∀ (ids : List RangeId) (rlr : List RealRange) (vlr : List VirtualRange)
      (out : List RealRange × List VirtualRange),
      markAll rlr vlr ids = some out →
      ∀ id ∈ ids, (is_ref_of rlr vlr id).isSome = true := by
  intro ids
  induction ids with
  | nil =>
    intro rlr vlr out _ id hid
    exact absurd hid (List.not_mem_nil id)
  | cons id0 rest ih =>
    intro rlr vlr out h id hid
    rw [markAll] at h
    cases hm : mark_reffy rlr vlr id0 with
    | none =>
      rw [hm] at h
      exact absurd h (by simp)
    | some rv =>
      rw [hm] at h
      rcases List.mem_cons.mp hid with rfl | hir
      · cases id with
        | real ix =>
          cases hg : rlr.get? ix with
          | none =>
            rw [mark_reffy, hg] at hm
            exact absurd hm (by simp)
          | some rr =>
            rw [is_ref_of, hg]
            rfl
        | virt ix =>
          cases hg : vlr.get? ix with
          | none =>
            rw [mark_reffy, hg] at hm
            exact absurd hm (by simp)
          | some vr =>
            rw [is_ref_of, hg]
            rfl
      · by_cases hne : id = id0
        · subst hne
          cases id with
          | real ix =>
            cases hg : rlr.get? ix with
            | none =>
              rw [mark_reffy, hg] at hm
              exact absurd hm (by simp)
            | some rr =>
              rw [is_ref_of, hg]
              rfl
          | virt ix =>
            cases hg : vlr.get? ix with
            | none =>
              rw [mark_reffy, hg] at hm
              exact absurd hm (by simp)
            | some vr =>
              rw [is_ref_of, hg]
              rfl
        · have := ih rv.1 rv.2 out h id hir
          rw [is_ref_of_mark_other hm id hne] at this
          exact this

theorem markAllChecked_of_all_false :
    ∀ (ids : List RangeId) (rlr : List RealRange) (vlr : List VirtualRange)
      (out : List RealRange × List VirtualRange),
      (∀ id ∈ ids, is_ref_of rlr vlr id = some false) → ids.Nodup →
      markAll rlr vlr ids = some out →
      markAllChecked rlr vlr ids = some out := by
  intro ids
  induction ids with
  | nil =>
    intro rlr vlr out _ _ h
    rw [markAllChecked, ← h, markAll]
  | cons id0 rest ih =>
    intro rlr vlr out hfalse hnd h
    rw [markAll] at h
    rw [markAllChecked]
    cases hm : mark_reffy rlr vlr id0 with
    | none =>
      rw [hm] at h
      exact absurd h (by simp)
    | some rv =>
      rw [hm] at h
      have hf0 := hfalse id0 (List.mem_cons_self _ _)
      have hck : mark_reffy_checked rlr vlr id0 = some rv := by
        cases id0 with
        | real ix =>
          cases hg : rlr.get? ix with
          | none =>
            rw [mark_reffy, hg] at hm
            exact absurd hm (by simp)
          | some rr =>
            rw [is_ref_of, hg] at hf0
            have hrf : rr.is_ref = false := by simpa using hf0
            rw [mark_reffy_checked]
            simp only [hg, hrf, Bool.false_eq_true, if_false]
            rw [mark_reffy] at hm
            simp only [hg] at hm
            exact hm
        | virt ix =>
          cases hg : vlr.get? ix with
          | none =>
            rw [mark_reffy, hg] at hm
            exact absurd hm (by simp)
          | some vr =>
            rw [is_ref_of, hg] at hf0
            have hrf : vr.is_ref = false := by simpa using hf0
            rw [mark_reffy_checked]
            simp only [hg, hrf, Bool.false_eq_true, if_false]
            rw [mark_reffy] at hm
            simp only [hg] at hm
            exact hm
      rw [hck]
      have hnotin : id0 ∉ rest := (List.nodup_cons.mp hnd).1
      refine ih rv.1 rv.2 out ?_ (List.nodup_cons.mp hnd).2 h
      intro id hid
      rw [is_ref_of_mark_other hm id (fun he => hnotin (he ▸ hid))]
      exact hfalse id (List.mem_cons_of_mem _ hid)

/-- C9: starting from range environments whose is-reference flags are all
false, the final marking loop of a successful analysis run calls
mark_reffy exactly once per visited identity (the visited set has no
duplicates), so the debug_assert in mark_reffy that the range is not
already marked never fires: the checked (debug-semantics) marking loop
succeeds and produces the same result as the release one. -/
theorem mark_assert_never_fires
    (a : BacktrackingReftypeAnalysis) (move_info : List MoveInfoElem)
    (reftype_class : RegClass) (reftyped_vregs : List VirtualReg)
    (vis : List RangeId) (out : List RealRange × List VirtualRange)
    (h0r : ∀ rr ∈ a.rlr_env, rr.is_ref = false)
    (h0v : ∀ vr ∈ a.vlr_env, vr.is_ref = false)
    (hv : analysisVisited a move_info reftype_class reftyped_vregs = some vis)
    (hc : core_reftypes_analysis a move_info reftype_class reftyped_vregs =
      some out) :
    markAllChecked a.rlr_env a.vlr_env vis = some out := by
  have hmk : markAll a.rlr_env a.vlr_env vis = some out :=
    core_markAll a move_info reftype_class reftyped_vregs vis out hv hc
  have hnd : vis.Nodup :=
    analysisVisited_nodup a move_info reftype_class reftyped_vregs vis hv
  refine markAllChecked_of_all_false vis a.rlr_env a.vlr_env out ?_ hnd hmk
  intro id hid
  have hsome := markAll_some_is_ref_isSome vis a.rlr_env a.vlr_env out hmk
    id hid
  cases id with
  | real ix =>
    rw [is_ref_of] at hsome ⊢
    cases hg : a.rlr_env.get? ix with
    | none =>
      rw [hg] at hsome
      exact absurd hsome (by simp)
    | some rr =>
      have hrf : rr.is_ref = false := h0r rr (List.get?_mem hg)
      simp [hrf]
  | virt ix =>
    rw [is_ref_of] at hsome ⊢
    cases hg : a.vlr_env.get? ix with
    | none =>
      rw [hg] at hsome
      exact absurd hsome (by simp)
    | some vr =>
      have hrf : vr.is_ref = false := h0v vr (List.get?_mem hg)
      simp [hrf]

/-- C8: for every move graph and every stack and visited set, the inner
DFS loop terminates: iterating the loop's step function empties the work
stack in finitely many steps, and the visited set it leaves behind is
exactly the one dfsLoop computes.  (Fatal lookup failures can only occur
earlier, while the move graph is built; the propagation phase always
terminates.) -/
theorem dfs_stack_empties (succ : SuccMap) (stack visited : List RangeId) :
    ∃ n : Nat, (dfsStep succ)^[n] (stack, visited) =
      ([], dfsLoop succ stack visited) := by
  induction stack, visited using dfsLoop.induct succ with
  | case1 visited =>
    refine ⟨0, ?_⟩
    rw [Function.iterate_zero_apply, dfsLoop_nil]
  | case2 visited src rest ih =>
    obtain ⟨n, hn⟩ := ih
    refine ⟨n + 1, ?_⟩
    rw [Function.iterate_succ_apply, dfsLoop_cons]
    exact hn

theorem dfsLoopLog_entries (succ : SuccMap) :
    ∀ stack visited log,
      (∀ p ∈ log, p.1 ∉ p.2) →
      ∀ p ∈ (dfsLoopLog succ stack visited log).2, p.1 ∉ p.2 := by
  intro stack visited log
  induction stack, visited, log using dfsLoopLog.induct succ with
  | case1 visited log =>
    intro h p hp
    rw [dfsLoopLog_nil] at hp
    exact h p hp
  | case2 visited log src rest ih =>
    intro h p hp
    rw [dfsLoopLog_cons] at hp
    refine ih ?_ p hp
    intro q hq
    rcases List.mem_append.mp hq with hql | hqr
    · exact h q hql
    · rw [List.mem_map] at hqr
      obtain ⟨d, hd, rfl⟩ := hqr
      have := (List.mem_filter.mp hd).2
      simpa using this

theorem dfsOuterLog_entries (succ : SuccMap) :
    ∀ seeds visited log,
      (∀ p ∈ log, p.1 ∉ p.2) →
      ∀ p ∈ (dfsOuterLog succ seeds visited log).2, p.1 ∉ p.2 := by
  intro seeds
  induction seeds with
  | nil =>
    intro visited log h p hp
    exact h p hp
  | cons s rest ih =>
    intro visited log h p hp
    exact ih _ _ (dfsLoopLog_entries succ [s] visited log h) p hp

/-- C5 (amended): during the transitive-closure computation an identity
may be pushed onto the work stack more than once; what the visited-set
membership guard does ensure is that every guarded push is of an identity
not yet in the visited set at the moment of the push (so in particular no
identity is pushed again once it has been popped and inserted). -/
theorem guarded_pushes_are_unvisited
    (a : BacktrackingReftypeAnalysis) (move_info : List MoveInfoElem)
    (reftype_class : RegClass) (reftyped_vregs : List VirtualReg)
    (log : List (RangeId × List RangeId))
    (hl : analysisPushLog a move_info reftype_class reftyped_vregs =
      some log) :
    ∀ p ∈ log, p.1 ∉ p.2 := by
  unfold analysisPushLog at hl
  cases hbs : buildSucc a reftype_class move_info [] with
  | none =>
    rw [hbs] at hl
    exact absurd hl (by simp)
  | some succ =>
    simp only [hbs] at hl
    cases hsd : buildSeeds a reftyped_vregs [] with
    | none =>
      rw [hsd] at hl
      exact absurd hl (by simp)
    | some seeds =>
      simp only [hsd, Option.some.injEq] at hl
      rw [← hl]
      exact dfsOuterLog_entries succ seeds seeds []
        (fun p hp => absurd hp (List.not_mem_nil p))

/-- A fragment covering every instruction point used in the examples. -/
def exFrag : RangeFrag := ⟨⟨0, false⟩, ⟨100, true⟩⟩

/-- Example environment: four virtual registers of class 0, each with a
single virtual range (range i for register i) covering all points. -/
def exEnv : BacktrackingReftypeAnalysis where
  rlr_env := []
  vlr_env := [⟨[exFrag], false⟩, ⟨[exFrag], false⟩, ⟨[exFrag], false⟩,
    ⟨[exFrag], false⟩]
  frag_env := []
  reg_to_ranges_maps := ⟨[], [[0], [1], [2], [3]]⟩

/-- The i-th example virtual register, as a Reg of class 0. -/
def exVReg (i : Nat) : Reg := ⟨false, 0, i⟩

/-- Example moves: v1 := v0, v2 := v0, v3 := v2, v1 := v3 — a diamond in
which range 1 is reachable both directly from the seed and through the
chain v0 → v2 → v3 → v1. -/
def exMoves : List MoveInfoElem :=
  [⟨exVReg 1, exVReg 0, 1⟩, ⟨exVReg 2, exVReg 0, 2⟩,
    ⟨exVReg 3, exVReg 2, 3⟩, ⟨exVReg 1, exVReg 3, 4⟩]

/-- Example seed: just v0. -/
def exVregs : List VirtualReg := [⟨0, 0⟩]

/-- The move graph stage (1) builds for the example. -/
def exSucc : SuccMap :=
  [(RangeId.virt 0, [RangeId.virt 1, RangeId.virt 2]),
    (RangeId.virt 2, [RangeId.virt 3]),
    (RangeId.virt 3, [RangeId.virt 1])]

/-- The visited set the example's DFS computes, in insertion order. -/
def exVis : List RangeId :=
  [RangeId.virt 0, RangeId.virt 2, RangeId.virt 3, RangeId.virt 1]

/-- The example's guarded-push log: range 1 is pushed twice, once from
the seed's pop and once from range 3's pop, both while still unvisited. -/
def exLog : List (RangeId × List RangeId) :=
  [(RangeId.virt 1, [RangeId.virt 0]),
    (RangeId.virt 2, [RangeId.virt 0]),
    (RangeId.virt 3, [RangeId.virt 0, RangeId.virt 2]),
    (RangeId.virt 1, [RangeId.virt 0, RangeId.virt 2, RangeId.virt 3])]

theorem exSucc_eq : buildSucc exEnv 0 exMoves [] = some exSucc := by decide

theorem exSeeds_eq : buildSeeds exEnv exVregs [] = some [RangeId.virt 0] := by
  decide

theorem exOuterLog_eq :
    dfsOuterLog exSucc [RangeId.virt 0] [RangeId.virt 0] [] =
      (exVis, exLog) := by
  have h := dfsLoopLogFuel_spec exSucc 20 [RangeId.virt 0] [RangeId.virt 0]
    [] (exVis, exLog) (by decide)
  rw [dfsOuterLog, h]
  rfl

theorem exPushLog_eq :
    analysisPushLog exEnv exMoves 0 exVregs = some exLog := by
  unfold analysisPushLog
  simp only [exSucc_eq, exSeeds_eq, exOuterLog_eq]

/-- C5 (counterexample): the claim that each identity is pushed onto the
work stack at most once over the whole propagation phase is false: in the
example, the identity of range 1 appears twice in the push log (both
pushes guarded by the visited check, from two different edges, before
range 1 is first popped). -/
theorem push_at_most_once_counterexample :
    (analysisPushLog exEnv exMoves 0 exVregs).map
      (fun log => (log.map Prod.fst).count (RangeId.virt 1)) = some 2 := by
  rw [exPushLog_eq]
  decide

/-- Witness for the amended C5 theorem at the example input: the third
logged push (range 3, pushed while the visited set held ranges 0 and 2)
is of an identity not in the visited set at the push. -/
theorem guarded_pushes_are_unvisited_witness :
    analysisPushLog exEnv exMoves 0 exVregs = some exLog ∧
      (RangeId.virt 3, [RangeId.virt 0, RangeId.virt 2]) ∈ exLog ∧
      RangeId.virt 3 ∉ [RangeId.virt 0, RangeId.virt 2] :=
  ⟨exPushLog_eq, by decide,
    guarded_pushes_are_unvisited exEnv exMoves 0 exVregs exLog exPushLog_eq
      (RangeId.virt 3, [RangeId.virt 0, RangeId.virt 2]) (by decide)⟩

/-- The visited set of the example run as computed by the plain loop. -/
theorem exOuter_eq :
    dfsOuter exSucc [RangeId.virt 0] [RangeId.virt 0] = exVis := by
  have h := dfsLoopFuel_spec exSucc 20 [RangeId.virt 0] [RangeId.virt 0]
    exVis (by decide)
  rw [dfsOuter, h]
  rfl

theorem exVisited_eq :
    analysisVisited exEnv exMoves 0 exVregs = some exVis := by
  unfold analysisVisited
  simp only [exSucc_eq, exSeeds_eq, exOuter_eq]

/-- The example's final range environments: all four virtual ranges
marked, the fragment lists untouched. -/
def exOut : List RealRange × List VirtualRange :=
  ([], [⟨[exFrag], true⟩, ⟨[exFrag], true⟩, ⟨[exFrag], true⟩,
    ⟨[exFrag], true⟩])

theorem exCore_eq :
    core_reftypes_analysis exEnv exMoves 0 exVregs = some exOut := by
  unfold core_reftypes_analysis
  simp only [exSucc_eq, exSeeds_eq, exOuter_eq]
  decide

/-- Witness for C1 at the example input: both pipeline stages succeed and
the computed visited set contains range 3 iff range 3 is reachable from
the seed along reference-class move edges. -/
theorem reftypes_analysis_exact_reachability_witness :
    buildSucc exEnv 0 exMoves [] = some exSucc ∧
      buildSeeds exEnv exVregs [] = some [RangeId.virt 0] ∧
      (RangeId.virt 3 ∈ dfsOuter exSucc [RangeId.virt 0] [RangeId.virt 0] ↔
        MoveReach exEnv exMoves 0 [RangeId.virt 0] (RangeId.virt 3)) :=
  ⟨exSucc_eq, exSeeds_eq,
    (reftypes_analysis_exact_reachability exEnv exMoves 0 exVregs exSucc
      [RangeId.virt 0] exSucc_eq exSeeds_eq).2 (RangeId.virt 3)⟩

/-- Environment for the C2 witness: virtual register 0's only range
covers just instruction 0, so a move reading it at instruction 5 has no
covering range. -/
def exEnvB : BacktrackingReftypeAnalysis where
  rlr_env := []
  vlr_env := [⟨[⟨⟨0, false⟩, ⟨0, true⟩⟩], false⟩, ⟨[exFrag], false⟩]
  frag_env := []
  reg_to_ranges_maps := ⟨[], [[0], [1]]⟩

/-- The unresolvable move of the C2 witness: v1 := v0 at instruction 5. -/
def exMoveB : MoveInfoElem := ⟨exVReg 1, exVReg 0, 5⟩

/-- Witness for C2 at a concrete input: the single move qualifies, its
source register has no covering range at the move's use point, and the
whole analysis returns no result. -/
theorem unresolvable_qualifying_move_panics_witness :
    exMoveB ∈ [exMoveB] ∧ exMoveB.dst.get_class = 0 ∧
      no_covering_range exEnvB (InstPoint.new_use exMoveB.iix)
        exMoveB.src = true ∧
      (find_range_id_for_reg exEnvB (InstPoint.new_use exMoveB.iix)
          exMoveB.src = none ∨
        find_range_id_for_reg exEnvB (InstPoint.new_def exMoveB.iix)
          exMoveB.dst = none) ∧
      core_reftypes_analysis exEnvB [exMoveB] 0 exVregs = none ∧
      analysisVisited exEnvB [exMoveB] 0 exVregs = none := by
  refine ⟨by decide, by decide, by decide, ?_, ?_, ?_⟩
  · exact (unresolvable_qualifying_move_panics exEnvB [exMoveB] 0 exVregs
      exMoveB (by decide) (by decide) (Or.inl (by decide))).1
  · exact (unresolvable_qualifying_move_panics exEnvB [exMoveB] 0 exVregs
      exMoveB (by decide) (by decide) (Or.inl (by decide))).2.1
  · exact (unresolvable_qualifying_move_panics exEnvB [exMoveB] 0 exVregs
      exMoveB (by decide) (by decide) (Or.inl (by decide))).2.2

/-- A move of class 1, not the reference class, for the C3 witness. -/
def exMoveC : MoveInfoElem := ⟨⟨false, 1, 0⟩, ⟨false, 1, 1⟩, 9⟩

/-- Witness for C3 at the example input: appending the class-1 move to
the example's move list changes nothing in the analysis result. -/
theorem non_reference_class_move_no_effect_witness :
    ¬ exMoveC.dst.get_class = 0 ∧
      core_reftypes_analysis exEnv (exMoves ++ [exMoveC]) 0 exVregs =
        core_reftypes_analysis exEnv (exMoves ++ []) 0 exVregs ∧
      analysisVisited exEnv (exMoves ++ [exMoveC]) 0 exVregs =
        analysisVisited exEnv (exMoves ++ []) 0 exVregs :=
  ⟨by decide,
    (non_reference_class_move_no_effect exEnv exMoves [] exMoveC 0 exVregs
      (by decide)).1,
    (non_reference_class_move_no_effect exEnv exMoves [] exMoveC 0 exVregs
      (by decide)).2⟩

/-- The example's virtual environment with only range 2 marked. -/
def exMarked : List RealRange × List VirtualRange :=
  ([], [⟨[exFrag], false⟩, ⟨[exFrag], false⟩, ⟨[exFrag], true⟩,
    ⟨[exFrag], false⟩])

/-- Witness for C4 at the example input: double-marking range 2 equals
single-marking it, and after the single marking the flag reads true. -/
theorem mark_reffy_idempotent_witness :
    ((mark_reffy [] exEnv.vlr_env (RangeId.virt 2)).bind fun rv =>
        mark_reffy rv.1 rv.2 (RangeId.virt 2)) =
      mark_reffy [] exEnv.vlr_env (RangeId.virt 2) ∧
      mark_reffy [] exEnv.vlr_env (RangeId.virt 2) = some exMarked ∧
      is_ref_of exMarked.1 exMarked.2 (RangeId.virt 2) = some true :=
  ⟨(mark_reffy_idempotent [] exEnv.vlr_env (RangeId.virt 2)).1, by decide,
    (mark_reffy_idempotent [] exEnv.vlr_env (RangeId.virt 2)).2 exMarked
      (by decide)⟩

/-- Witness for C6 at the example input, read off at index 1: range
identity (virtual, 1) is visited, so its entry keeps its fragments and
gains the flag; the real side at index 1 is empty on both ends. -/
theorem analysis_mutates_only_visited_flags_witness :
    analysisVisited exEnv exMoves 0 exVregs = some exVis ∧
      core_reftypes_analysis exEnv exMoves 0 exVregs = some exOut ∧
      (exOut.1.get? 1 = (exEnv.rlr_env.get? 1).map
          (fun rr => if RangeId.real 1 ∈ exVis then { rr with is_ref := true }
            else rr) ∧
        exOut.2.get? 1 = (exEnv.vlr_env.get? 1).map
          (fun vr => if RangeId.virt 1 ∈ exVis then { vr with is_ref := true }
            else vr)) :=
  ⟨exVisited_eq, exCore_eq,
    analysis_mutates_only_visited_flags exEnv exMoves 0 exVregs exVis exOut
      exVisited_eq exCore_eq 1⟩

/-- Witness for C9 at the example input: with all flags initially false
the checked (debug-assert) marking loop succeeds and agrees with the
release result. -/
theorem mark_assert_never_fires_witness :
    markAllChecked exEnv.rlr_env exEnv.vlr_env exVis = some exOut :=
  mark_assert_never_fires exEnv exMoves 0 exVregs exVis exOut (by decide)
    (by decide) exVisited_eq exCore_eq

/-- Witness for C10 at the example input: resolving virtual register 2 at
instruction 1's use point yields the virtual range identity 2, whose kind
matches the register's. -/
theorem find_range_id_matches_reg_kind_witness :
    find_range_id_for_reg exEnv (InstPoint.new_use 1) (exVReg 2) =
        some (RangeId.virt 2) ∧
      (RangeId.virt 2).is_real = (exVReg 2).is_real :=
  ⟨by decide,
    find_range_id_matches_reg_kind exEnv (InstPoint.new_use 1) (exVReg 2)
      (RangeId.virt 2) (by decide)⟩

end RegAllocReftypes
